import Mathlib

/-!
Verification of the self-describing typed container store with linked, ragged
and indexed tabular records that the tutorial notebooks exercise.  The store
itself (typed columns, ragged index layer, region references, dynamic record
tables, the grouping index and the serialization engine) lives in the external
hierarchical-data library; the notebooks only call into it.  The definitions
below therefore embed the store as the specification describes it, checked
against the concrete behaviour the notebooks record (the int64-to-uint64
widening warning, the sweep table gaining one row per registered series with
ids 0..3 and sweep numbers [0, 1, 0, 1], the round-trip preservation of the
shared electrode object, the uniform ROI mask representation rule).
-/

namespace ContainerStore

/-- Modelled from the spec: the error taxonomy of section 7 of the design
(`TypeMismatchError`, `IndexError`, `RangeError`, `UnknownRowError`,
`StaleReferenceError`, `DuplicateColumnError`, `MissingDefaultError`,
`MissingColumnError`, `RowNotFoundError`, `CyclicGraphError`,
`SchemaVersionError`, `CorruptionError`); the raising code is the external
library, not in this repository. -/
inductive Err
  | typeMismatch
  | indexErr
  | rangeErr
  | unknownRow
  | staleRef
  | duplicateColumn
  | missingDefault
  | missingColumn
  | rowNotFound
  | cyclicGraph
  | schemaVersion
  | corruption
  deriving DecidableEq, Repr

/-- Modelled from the spec: the dtype enumeration of the data model, restricted
to the dtypes the claims exercise.  `uint64` is the declared
minimum-unsigned-width storage type that triggers numeric widening (the
notebook records `int64` being converted to `uint64`, min specification
`uint32`); `ref` is the dtype of object-reference entries (a table row
pointing at a whole child container, as the sweep table's `series` column
does). -/
inductive Dtype
  | int64
  | uint64
  | boolT
  | strT
  | ref
  deriving DecidableEq, Repr

/-- Modelled from the spec: a stored scalar value.  `vRef` is a handle into
the arena of containers (shared-object identity is handle equality, per the
design notes). -/
inductive Val
  | vInt (i : Int)
  | vBool (b : Bool)
  | vStr (s : String)
  | vRef (h : Nat)
  deriving DecidableEq, Repr

/-- The natural dtype of a value before any widening. -/
def Val.dtypeOf : Val → Dtype
  | .vInt _ => .int64
  | .vBool _ => .boolT
  | .vStr _ => .strT
  | .vRef _ => .ref

/-- Modelled from the spec: the non-fatal warning event emitted by the one
permitted implicit conversion (numeric widening); the emitting code is the
external object mapper. -/
inductive WarningEvent
  | widening (src : Dtype) (dst : Dtype)
  deriving DecidableEq, Repr

/-- Modelled from the spec: a typed homogeneous column with unit metadata
(section 3 of the design); the implementation is the external library's
typed-array column. -/
structure Column where
  name : String
  dtype : Dtype
  values : List Val
  unit : Option String
  deriving DecidableEq, Repr

/-- The one documented implicit conversion: an `int64` value may be widened
into a column whose declared dtype is the minimum-unsigned-width type
`uint64`, provided the value is non-negative (sign loss is rejected, the
policy the design notes leave to the implementer). -/
def widensTo (v : Val) (d : Dtype) : Bool :=
  match v, d with
  | .vInt i, .uint64 => decide (0 ≤ i)
  | _, _ => false

/-- Modelled from the spec: `append(col, value)` of the typed column store
(section 4.1).  A matching dtype appends the value; the documented numeric
widening appends the value unchanged and emits a non-fatal warning event; any
other mismatch fails with `TypeMismatchError`. -/
def Column.append (c : Column) (v : Val) : Except Err (Column × List WarningEvent) :=
  if v.dtypeOf = c.dtype then
    .ok ({ c with values := c.values ++ [v] }, [])
  else if widensTo v c.dtype then
    .ok ({ c with values := c.values ++ [v] }, [WarningEvent.widening v.dtypeOf c.dtype])
  else
    .error .typeMismatch

/-- Modelled from the spec: a ragged column, a flat backing store plus row
bounds (section 3 of the design); the implementation is the external library's
vector-index pair. -/
structure RaggedColumn where
  flatValues : List Val
  rowBounds : List Nat
  deriving DecidableEq, Repr

/-- Number of rows of a ragged column. -/
def RaggedColumn.rowCount (r : RaggedColumn) : Nat := r.rowBounds.length - 1

/-- Modelled from the spec: `appendRow` of the ragged index layer (section
4.2): append every value to `flatValues` and push the previous last bound
plus the length of the appended sequence. -/
def RaggedColumn.appendRow (r : RaggedColumn) (vs : List Val) : RaggedColumn :=
  { flatValues := r.flatValues ++ vs,
    rowBounds := r.rowBounds ++ [r.rowBounds.getLastD 0 + vs.length] }

/-- Modelled from the spec: `getRow` of the ragged index layer, the slice of
`flatValues` between two consecutive bounds, failing with `IndexError` out of
range. -/
def RaggedColumn.getRow (r : RaggedColumn) (i : Nat) : Except Err (List Val) :=
  if i < r.rowCount then
    .ok ((r.flatValues.drop (r.rowBounds.getD i 0)).take
          (r.rowBounds.getD (i + 1) 0 - r.rowBounds.getD i 0))
  else
    .error .indexErr

/-- Structural invariant of a ragged column: the bounds start at 0, end at the
length of the flat store, and are non-decreasing. -/
def RaggedColumn.wf (r : RaggedColumn) : Prop :=
  r.rowBounds.head? = some 0 ∧
  r.rowBounds.getLast? = some r.flatValues.length ∧
  ∀ j, j < r.rowBounds.length → ∀ i, i ≤ j →
    r.rowBounds.getD i 0 ≤ r.rowBounds.getD j 0

instance (r : RaggedColumn) : Decidable r.wf := by
  unfold RaggedColumn.wf; infer_instance

/-- Modelled from the spec: a row selector of a region reference, either a
contiguous half-open range or an explicit ordered row-id list (section 3 of
the design). -/
inductive RowSelector
  | range (startIdx stopIdx : Nat)
  | rowList (ids : List Nat)
  deriving DecidableEq, Repr

/-- Modelled from the spec: a region reference, a lightweight handle naming a
target table and a row selector; the implementation is the external library's
dynamic-table-region type. -/
structure RegionReference where
  targetTableId : String
  sel : RowSelector
  deriving DecidableEq, Repr

/-- Modelled from the spec: one named column of a dynamic record table, either
a plain typed column carrying an optional backfill default, or a ragged
column. -/
inductive TCol
  | plain (c : Column) (dflt : Option Val)
  | ragged (rname : String) (r : RaggedColumn)
  deriving DecidableEq, Repr

/-- The name of a table column. -/
def TCol.name : TCol → String
  | .plain c _ => c.name
  | .ragged n _ => n

/-- How many row entries a table column currently holds (for a ragged column,
the number of bounded rows). -/
def TCol.entriesOk (tc : TCol) (n : Nat) : Prop :=
  match tc with
  | .plain c _ => c.values.length = n
  | .ragged _ r => r.rowBounds.length = n + 1

/-- A value supplied for one column of an appended row: a scalar for a plain
column or a sequence for a ragged column. -/
inductive RowVal
  | scalar (v : Val)
  | seq (vs : List Val)
  deriving DecidableEq, Repr

/-- Modelled from the spec: extending one column by an appended row's value
for it (section 4.4): a plain column appends the supplied scalar (type-checked
by `Column.append`) or its declared default, failing with
`MissingColumnError` when neither exists; a ragged column appends the supplied
sequence, failing with `MissingColumnError` when the row omits it. -/
def TCol.extend (tc : TCol) (row : List (String × RowVal)) : Except Err TCol :=
  match tc with
  | .plain c d =>
    match row.find? (fun p => p.1 = c.name) with
    | some (_, RowVal.scalar v) =>
      match c.append v with
      | .ok cv => .ok (.plain cv.1 d)
      | .error e => .error e
    | some (_, RowVal.seq _) => .error .typeMismatch
    | none =>
      match d with
      | some v =>
        match c.append v with
        | .ok cv => .ok (.plain cv.1 d)
        | .error e => .error e
      | none => .error .missingColumn
  | .ragged n r =>
    match row.find? (fun p => p.1 = n) with
    | some (_, RowVal.seq vs) => .ok (.ragged n (r.appendRow vs))
    | some (_, RowVal.scalar _) => .error .typeMismatch
    | none => .error .missingColumn

/-- Extend every column of a table by the same appended row, failing as a
whole when any single column fails, so that no partially extended column list
ever escapes. -/
def extendAll (cols : List TCol) (row : List (String × RowVal)) : Except Err (List TCol) :=
  match cols with
  | [] => .ok []
  | tc :: rest =>
    match tc.extend row with
    | .ok tc' =>
      match extendAll rest row with
      | .ok rest' => .ok (tc' :: rest')
      | .error e => .error e
    | .error e => .error e

/-- Modelled from the spec: a dynamic record table (section 3 of the design):
a stable identifier, the ordered monotonic row ids, the next id to assign, and
the named columns; the implementation is the external library's dynamic
table. -/
structure Table where
  tid : String
  rowIds : List Nat
  nextId : Nat
  cols : List TCol
  deriving DecidableEq, Repr

/-- Number of rows of a table. -/
def Table.rowCount (t : Table) : Nat := t.rowIds.length

/-- Modelled from the spec: `appendRow` of the dynamic record table (section
4.4): every column is extended by its supplied value or default, the next
monotonic row id is assigned, and any failure aborts the whole operation. -/
def Table.appendRow (t : Table) (row : List (String × RowVal)) : Except Err Table :=
  match extendAll t.cols row with
  | .ok cols' =>
    .ok { t with rowIds := t.rowIds ++ [t.nextId], nextId := t.nextId + 1, cols := cols' }
  | .error e => .error e

/-- Modelled from the spec: `addColumn` of the dynamic record table (section
4.4): fails with `DuplicateColumnError` when the name exists; backfills
existing rows with the supplied default, or fails with `MissingDefaultError`
when rows already exist and no default is supplied. -/
def Table.addColumn (t : Table) (n : String) (d : Dtype) (u : Option String)
    (dflt : Option Val) : Except Err Table :=
  if t.cols.any (fun tc => tc.name = n) then .error .duplicateColumn
  else
    match dflt with
    | some v =>
      .ok { t with cols := t.cols ++ [.plain ⟨n, d, List.replicate t.rowCount v, u⟩ (some v)] }
    | none =>
      if t.rowCount = 0 then .ok { t with cols := t.cols ++ [.plain ⟨n, d, [], u⟩ none] }
      else .error .missingDefault

/-- Modelled from the spec: adding a ragged column, legal on a table with
existing rows because zero-length rows are legal (every backfilled row is
empty, giving equal consecutive bounds). -/
def Table.addRaggedColumn (t : Table) (n : String) : Except Err Table :=
  if t.cols.any (fun tc => tc.name = n) then .error .duplicateColumn
  else .ok { t with cols := t.cols ++ [.ragged n ⟨[], List.replicate (t.rowCount + 1) 0⟩] }

/-- Read one cell of one table column by row position. -/
def TCol.getCell (tc : TCol) (i : Nat) : Except Err RowVal :=
  match tc with
  | .plain c _ =>
    if i < c.values.length then .ok (.scalar (c.values.getD i (.vInt 0))) else .error .indexErr
  | .ragged _ r =>
    match r.getRow i with
    | .ok vs => .ok (.seq vs)
    | .error e => .error e

/-- Read the cell of the named column at a row position, failing with
`MissingColumnError` for an unknown column name. -/
def Table.getCell (t : Table) (n : String) (i : Nat) : Except Err RowVal :=
  match t.cols.find? (fun tc => tc.name = n) with
  | some tc => tc.getCell i
  | none => .error .missingColumn

/-- The scalar values of the named plain column (empty for a missing or
ragged column). -/
def Table.keyVals (t : Table) (n : String) : List Val :=
  match t.cols.find? (fun tc => tc.name = n) with
  | some (.plain c _) => c.values
  | _ => []

/-- The mutating operations of a dynamic record table, as an explicit
operation language so that invariants can be stated over arbitrary operation
sequences. -/
inductive TableOp
  | append (row : List (String × RowVal))
  | addCol (n : String) (d : Dtype) (u : Option String) (dflt : Option Val)
  | addRagged (n : String)
  deriving DecidableEq, Repr

/-- Run one table operation, propagating its error. -/
def Table.runOp (t : Table) : TableOp → Except Err Table
  | .append row => t.appendRow row
  | .addCol n d u dflt => t.addColumn n d u dflt
  | .addRagged n => t.addRaggedColumn n

/-- Modelled from the spec: a failing operation aborts and leaves the prior
in-memory state unchanged (section 7), so applying an operation keeps the old
table on error. -/
def Table.applyOp (t : Table) (op : TableOp) : Table :=
  match t.runOp op with
  | .ok t' => t'
  | .error _ => t

/-- Apply a whole sequence of table operations. -/
def Table.applyOps (t : Table) (ops : List TableOp) : Table :=
  ops.foldl Table.applyOp t

/-- Row-id invariant of a dynamic record table: the ids are strictly
increasing (hence unique) and all below the next id to assign. -/
def Table.inv (t : Table) : Prop :=
  t.rowIds.Pairwise (· < ·) ∧ ∀ i ∈ t.rowIds, i < t.nextId

instance (t : Table) : Decidable t.inv := by
  unfold Table.inv; infer_instance

/-- Column-length invariant of a table: every column holds exactly one entry
per row (no partial row left behind by any append). -/
def Table.lenOk (t : Table) : Prop :=
  ∀ tc ∈ t.cols, tc.entriesOk t.rowCount

instance (tc : TCol) (n : Nat) : Decidable (tc.entriesOk n) :=
  match tc with
  | .plain c _ => (inferInstance : Decidable (c.values.length = n))
  | .ragged _ r => (inferInstance : Decidable (r.rowBounds.length = n + 1))

instance (t : Table) : Decidable t.lenOk :=
  List.decidableBAll _ _

/-- Modelled from the spec: `makeRange` of the region-reference component
(section 4.3): requires `0 <= start <= end <= table.rowCount`, else
`RangeError`; the implementation is the external library's
create-table-region call. -/
def makeRange (t : Table) (s e : Nat) : Except Err RegionReference :=
  if s ≤ e ∧ e ≤ t.rowCount then .ok ⟨t.tid, .range s e⟩ else .error .rangeErr

/-- Modelled from the spec: `makeRowList` of the region-reference component:
requires every id to be present in the target table, else
`UnknownRowError`. -/
def makeRowList (t : Table) (ids : List Nat) : Except Err RegionReference :=
  if ids.all (fun i => t.rowIds.contains i) then .ok ⟨t.tid, .rowList ids⟩
  else .error .unknownRow

/-- Modelled from the spec: `resolve` of the region-reference component,
returning the ordered row handles selected in the target table; a selector no
longer covered by the table fails with `StaleReferenceError`. -/
def resolveRef (t : Table) (ref : RegionReference) : Except Err (List Nat) :=
  match ref.sel with
  | .range s e =>
    if s ≤ e ∧ e ≤ t.rowCount then .ok ((t.rowIds.drop s).take (e - s))
    else .error .staleRef
  | .rowList ids =>
    if ids.all (fun i => t.rowIds.contains i) then .ok ids else .error .staleRef

/-- Modelled from the spec: the grouping index (section 4.5), a mapping from
key value to the ordered row ids carrying that key, plus the explicit dirty
flag of the lazy/rebuildable design; the implementation is the external
library's sweep-table lookup machinery. -/
structure GroupIndex where
  keyColumn : String
  buckets : List (Val × List Nat)
  dirty : Bool
  deriving DecidableEq, Repr

/-- Prepend a row id to the bucket of its key, creating the bucket when the
key is new. -/
def consBucket (v : Val) (rid : Nat) : List (Val × List Nat) → List (Val × List Nat)
  | [] => [(v, [rid])]
  | (k, rs) :: bs => if k = v then (k, rid :: rs) :: bs else (k, rs) :: consBucket v rid bs

/-- Build the buckets of a grouping index from the (rowId, key) pairs of the
table, one row at a time, keeping each bucket in insertion order. -/
def mkBuckets : List (Nat × Val) → List (Val × List Nat)
  | [] => []
  | (rid, v) :: rest => consBucket v rid (mkBuckets rest)

/-- Look a key up in the buckets: the ordered row ids for the key, or the
empty sequence when the key is absent (never an error). -/
def lookupB (bs : List (Val × List Nat)) (k : Val) : List Nat :=
  match bs.find? (fun b => b.1 = k) with
  | some b => b.2
  | none => []

/-- Modelled from the spec: `buildIndex(table, keyColumn)` (section 4.5), a
single O(n) scan of the rows in insertion order. -/
def buildIndex (t : Table) (n : String) : GroupIndex :=
  { keyColumn := n, buckets := mkBuckets (t.rowIds.zip (t.keyVals n)), dirty := false }

/-- Modelled from the spec: `invalidate(index)` marks the index stale. -/
def GroupIndex.invalidate (g : GroupIndex) : GroupIndex :=
  { g with dirty := true }

/-- A stale index is fully rebuilt from its table before use; a clean index is
used as is. -/
def GroupIndex.rebuild (g : GroupIndex) (t : Table) : GroupIndex :=
  if g.dirty then buildIndex t g.keyColumn else g

/-- Modelled from the spec: `lookup(index, key)` (section 4.5): a stale index
triggers a full rebuild, then the key's bucket is returned, or the empty
sequence for an absent key. -/
def GroupIndex.lookup (g : GroupIndex) (t : Table) (k : Val) : List Nat :=
  lookupB (g.rebuild t).buckets k

/-- Iterate the invalidate-plus-rebuild cycle a given number of times. -/
def invalidateRebuildN (t : Table) : Nat → GroupIndex → GroupIndex
  | 0, g => g
  | m + 1, g => invalidateRebuildN t m ((g.invalidate).rebuild t)

/-- Modelled from the spec: the full linear scan a grouping-index lookup must
agree with — filter the (rowId, key) pairs on the key, in insertion order. -/
def Table.linearScan (t : Table) (n : String) (k : Val) : List Nat :=
  ((t.rowIds.zip (t.keyVals n)).filter (fun p => p.2 = k)).map (fun p => p.1)

/-- Modelled from the spec: a fresh sweep table, the grouping table the
intracellular-ephys notebook exercises: a ragged object-reference column
`series` and a plain `sweep_number` column of declared minimum unsigned
width. -/
def newSweepTable : Table :=
  { tid := "sweep_table", rowIds := [], nextId := 0,
    cols := [.ragged "series" ⟨[], [0]⟩,
             .plain ⟨"sweep_number", .uint64, [], none⟩ none] }

/-- Modelled from the spec: registering one patch-clamp series in the sweep
table (the external library's update of the sweep table on `add_stimulus` and
`add_acquisition`): one appended row carrying a single-element series
reference list and that series' sweep number. -/
def registerSeries (t : Table) (h : Nat) (n : Int) : Except Err Table :=
  t.appendRow [("series", RowVal.seq [Val.vRef h]),
               ("sweep_number", RowVal.scalar (Val.vInt n))]

/-- Registering a stimulus series updates the sweep table exactly as
registering any series does. -/
def addStimulus (t : Table) (h : Nat) (n : Int) : Except Err Table :=
  registerSeries t h n

/-- Registering an acquisition (response) series updates the sweep table
exactly as registering any series does. -/
def addAcquisition (t : Table) (h : Nat) (n : Int) : Except Err Table :=
  registerSeries t h n

/-- Apply a registration, keeping the old table on error. -/
def applyReg (t : Table) (h : Nat) (n : Int) : Table :=
  match registerSeries t h n with
  | .ok t' => t'
  | .error _ => t

/-- The shape invariant of a sweep table: exactly the ragged `series` column
and the plain `sweep_number` column of declared minimum unsigned width, with
no default. -/
def sweepShaped (t : Table) : Prop :=
  ∃ r c, t.cols = [.ragged "series" r, .plain c none] ∧
    c.name = "sweep_number" ∧ c.dtype = .uint64

/-- The sweep-table scenario the notebook records: two stimulus series and two
response series registered with sweep numbers 0, 1, 0, 1. -/
def sweepScenario : Table :=
  applyReg (applyReg (applyReg (applyReg newSweepTable 100 0) 101 1) 102 0) 103 1

/-- Modelled from the spec: the two ROI mask representations of the
plane-segmentation table of the optical-physiology notebook. -/
inductive MaskKind
  | imageMask
  | pixelMask
  deriving DecidableEq, Repr

/-- One region of interest: its mask kind and its flattened mask data. -/
structure Roi where
  kind : MaskKind
  mask : List Val
  deriving DecidableEq, Repr

/-- Modelled from the spec: a plane-segmentation table, recording the mask
kind chosen by its first ROI; the implementation is the external library's
plane-segmentation dynamic table. -/
structure PlaneSeg where
  maskKind : Option MaskKind
  rois : List Roi
  deriving DecidableEq, Repr

/-- A fresh plane-segmentation table with no ROIs and no chosen mask kind. -/
def PlaneSeg.fresh : PlaneSeg :=
  { maskKind := none, rois := [] }

/-- Modelled from the spec: `add_roi` of the plane-segmentation table, whose
external implementation the notebook documents as requiring one consistent
mask representation per table (rows cannot mix image masks and pixel masks):
the first ROI fixes the table's kind, a matching ROI is appended, a
mismatched ROI fails. -/
def PlaneSeg.addRoi (ps : PlaneSeg) (k : MaskKind) (m : List Val) : Except Err PlaneSeg :=
  match ps.maskKind with
  | none => .ok { maskKind := some k, rois := ps.rois ++ [⟨k, m⟩] }
  | some k0 =>
    if k = k0 then .ok { maskKind := some k0, rois := ps.rois ++ [⟨k, m⟩] }
    else .error .typeMismatch

/-- Uniformity invariant of a plane segmentation: every ROI carries the
table's single chosen mask kind. -/
def PlaneSeg.uniform (ps : PlaneSeg) : Prop :=
  ∀ r ∈ ps.rois, some r.kind = ps.maskKind

instance (ps : PlaneSeg) : Decidable ps.uniform :=
  List.decidableBAll _ _

/-- Modelled from the spec: one container of the linked container graph
(section 3): a name, an attribute bag (device, electrode and subject metadata
records), an optional tabular payload, region references out, and
ownership/link edges to other containers by handle. -/
structure Container where
  cname : String
  attrs : List (String × Val)
  table : Option Table
  refs : List RegionReference
  links : List Nat
  deriving DecidableEq, Repr

/-- Modelled from the spec: the linked container graph, an arena of containers
addressed by integer handles; shared-object identity is handle equality (the
design notes' arena-of-objects plus handles). -/
structure Graph where
  arena : List (Nat × Container)
  deriving DecidableEq, Repr

/-- Resolve a handle to its container entry in the arena. -/
def Graph.findC (g : Graph) (h : Nat) : Option (Nat × Container) :=
  g.arena.find? (fun p => p.1 = h)

/-- The ownership-edge successors of a handle. -/
def Graph.succs (g : Graph) (h : Nat) : List Nat :=
  match g.findC h with
  | some p => p.2.links
  | none => []

/-- Fuel-bounded reachability along ownership edges (one or more edges). -/
def Graph.reach (g : Graph) : Nat → Nat → Nat → Bool
  | 0, _, _ => false
  | fuel + 1, a, b => (g.succs a).any (fun c => c = b || g.reach fuel c b)

/-- Modelled from the spec: the cycle check of the serialization engine
(section 4.6): some container reaches itself along ownership edges. -/
def Graph.hasCycle (g : Graph) : Bool :=
  g.arena.any (fun p => g.reach g.arena.length p.1 p.1)

/-- The declared version of the persisted format, checked on read. -/
def formatVersion : Nat := 1

/-- Persisted form of a plain typed column: its name, dtype, values and unit
metadata written as a typed array. -/
structure PColumn where
  pname : String
  pdtype : Dtype
  pvalues : List Val
  punit : Option String
  deriving DecidableEq, Repr

/-- Persisted form of a ragged column: the flat store and the bounds. -/
structure PRagged where
  pflat : List Val
  pbounds : List Nat
  deriving DecidableEq, Repr

/-- Persisted form of one table column. -/
inductive PTCol
  | pplain (c : PColumn) (dflt : Option Val)
  | pragged (n : String) (r : PRagged)
  deriving DecidableEq, Repr

/-- Persisted form of a dynamic record table: its row identifiers, the next
identifier, and its columns. -/
structure PTable where
  ptid : String
  prowIds : List Nat
  pnext : Nat
  pcols : List PTCol
  deriving DecidableEq, Repr

/-- Persisted form of one container: its stable path (the handle), its name,
attributes, optional table, region references written as (targetPath,
selector) pairs, and link edges written as paths. -/
structure PEntry where
  path : Nat
  pename : String
  pattrs : List (String × Val)
  ptable : Option PTable
  prefs : List (String × RowSelector)
  plinks : List Nat
  deriving DecidableEq, Repr

/-- Modelled from the spec: the persisted hierarchical byte layout of the
serialization engine (section 4.6), as a self-describing flat file of entries
under a declared format version. -/
structure PFile where
  version : Nat
  entries : List PEntry
  deriving DecidableEq, Repr

/-- Serialize one plain column. -/
def encodeColumn (c : Column) : PColumn :=
  ⟨c.name, c.dtype, c.values, c.unit⟩

/-- Serialize one table column. -/
def encodeTCol : TCol → PTCol
  | .plain c d => .pplain (encodeColumn c) d
  | .ragged n r => .pragged n ⟨r.flatValues, r.rowBounds⟩

/-- Serialize one table. -/
def encodeTable (t : Table) : PTable :=
  ⟨t.tid, t.rowIds, t.nextId, t.cols.map encodeTCol⟩

/-- Serialize one container into its persisted entry at its stable path. -/
def encodeEntry (p : Nat × Container) : PEntry :=
  ⟨p.1, p.2.cname, p.2.attrs, p.2.table.map encodeTable,
   p.2.refs.map (fun ref => (ref.targetTableId, ref.sel)), p.2.links⟩

/-- Modelled from the spec: `write(graph, destination)` (section 4.6): fails
with `CyclicGraphError` before any bytes are persisted when the ownership
edges form a cycle, otherwise flattens the arena into the persisted file,
writing every shared container once at its stable path. -/
def writeGraph (g : Graph) : Except Err PFile :=
  if g.hasCycle then .error .cyclicGraph
  else .ok ⟨formatVersion, g.arena.map encodeEntry⟩

/-- The destination after a write attempt: a failed write leaves it fully
absent. -/
def writeDest (g : Graph) : Option PFile :=
  match writeGraph g with
  | .ok f => some f
  | .error _ => none

/-- Adjacent-pair non-decreasing check on a bounds list. -/
def nondecreasing : List Nat → Bool
  | [] => true
  | [_] => true
  | a :: b :: rest => a ≤ b && nondecreasing (b :: rest)

/-- The structural-bounds check a reader performs on a persisted ragged
column. -/
def boundsOk (r : PRagged) : Bool :=
  r.pbounds.head? = some 0 &&
  r.pbounds.getLast? = some r.pflat.length &&
  nondecreasing r.pbounds

/-- Materialize one persisted table column, failing with `CorruptionError`
when the ragged bounds violate their structural invariant. -/
def decodeTCol : PTCol → Except Err TCol
  | .pplain c d => .ok (.plain ⟨c.pname, c.pdtype, c.pvalues, c.punit⟩ d)
  | .pragged n r =>
    if boundsOk r then .ok (.ragged n ⟨r.pflat, r.pbounds⟩) else .error .corruption

/-- Materialize the columns of one persisted table, failing as a whole when
any column is corrupt. -/
def decodeTCols : List PTCol → Except Err (List TCol)
  | [] => .ok []
  | c :: rest =>
    match decodeTCol c with
    | .ok tc =>
      match decodeTCols rest with
      | .ok tcs => .ok (tc :: tcs)
      | .error e => .error e
    | .error e => .error e

/-- Materialize one persisted table. -/
def decodeTable (t : PTable) : Except Err Table :=
  match decodeTCols t.pcols with
  | .ok tcs => .ok ⟨t.ptid, t.prowIds, t.pnext, tcs⟩
  | .error e => .error e

/-- Materialize one persisted entry back into its container at its handle. -/
def decodeEntry (e : PEntry) : Except Err (Nat × Container) :=
  match e.ptable with
  | some pt =>
    match decodeTable pt with
    | .ok t =>
      .ok (e.path, ⟨e.pename, e.pattrs, some t,
        e.prefs.map (fun pr => ⟨pr.1, pr.2⟩), e.plinks⟩)
    | .error er => .error er
  | none =>
    .ok (e.path, ⟨e.pename, e.pattrs, none,
      e.prefs.map (fun pr => ⟨pr.1, pr.2⟩), e.plinks⟩)

/-- Materialize every persisted entry, failing as a whole on the first
corrupt entry. -/
def decodeEntries : List PEntry → Except Err (List (Nat × Container))
  | [] => .ok []
  | e :: rest =>
    match decodeEntry e with
    | .ok c =>
      match decodeEntries rest with
      | .ok cs => .ok (c :: cs)
      | .error er => .error er
    | .error er => .error er

/-- Modelled from the spec: `read(source)` (section 4.6): fails with
`SchemaVersionError` on an incompatible declared format version, with
`CorruptionError` on violated structural invariants, and otherwise
reconstructs the container graph with its handles. -/
def readGraph (f : PFile) : Except Err Graph :=
  if f.version = formatVersion then
    match decodeEntries f.entries with
    | .ok cs => .ok ⟨cs⟩
    | .error e => .error e
  else .error .schemaVersion

/-- Serializing and then materializing a graph. -/
def roundTrip (g : Graph) : Except Err Graph :=
  match writeGraph g with
  | .ok f => readGraph f
  | .error e => .error e

/-- Whether one table column's ragged bounds (if any) are intact. -/
def TCol.raggedIntact : TCol → Bool
  | .ragged _ r => boundsOk ⟨r.flatValues, r.rowBounds⟩
  | .plain _ _ => true

/-- Structural well-formedness of a table for serialization: every ragged
column satisfies its bounds invariant. -/
def Table.raggedOk (t : Table) : Prop :=
  ∀ tc ∈ t.cols, tc.raggedIntact = true

/-- Well-formedness of a linked container graph for serialization: handles
are unique (one copy per shared object), every contained table's ragged
bounds are intact, and the ownership edges are acyclic. -/
def Graph.wf (g : Graph) : Prop :=
  (g.arena.map (fun p => p.1)).Nodup ∧
  (∀ p ∈ g.arena, ∀ t, p.2.table = some t → t.raggedOk) ∧
  g.hasCycle = false

instance (t : Table) : Decidable t.raggedOk := by
  unfold Table.raggedOk; infer_instance

instance (g : Graph) : Decidable g.wf := by
  unfold Graph.wf; infer_instance

/-- The fresh table of the specification's grouping scenario: a ragged
`series` column and a plain `sweep_number` column of dtype int. -/
def scenarioBase : Table :=
  { tid := "sweeps", rowIds := [], nextId := 0,
    cols := [.ragged "series" ⟨[], [0]⟩,
             .plain ⟨"sweep_number", .int64, [], none⟩ none] }

/-- One appended row of the grouping scenario: a list of series references
and a sweep number. -/
def scenarioRow (hs : List Nat) (n : Int) : List (String × RowVal) :=
  [("series", RowVal.seq (hs.map Val.vRef)),
   ("sweep_number", RowVal.scalar (Val.vInt n))]

/-- The two-row grouping scenario of the specification: row 0 carries two
series and sweep number 0, row 1 carries two series and sweep number 1. -/
def scenarioTable : Table :=
  Table.applyOp (Table.applyOp scenarioBase (.append (scenarioRow [10, 11] 0)))
    (.append (scenarioRow [12, 13] 1))

/-- A one-row ragged column used to instantiate the ragged invariants. -/
def rcDemo : RaggedColumn :=
  ⟨[Val.vInt 5], [0, 1]⟩

/-- The trials table of the optical-physiology notebook just before
`add_trial_column`: two rows of start and stop times. -/
def trialsTable : Table :=
  { tid := "trials", rowIds := [0, 1], nextId := 2,
    cols := [.plain ⟨"start_time", .int64, [Val.vInt 1, Val.vInt 6], some "seconds"⟩ none,
             .plain ⟨"stop_time", .int64, [Val.vInt 5, Val.vInt 10], some "seconds"⟩ none] }

/-- The uint-typed sweep-number column the widening warning of the notebook
concerns. -/
def sweepCol : Column :=
  ⟨"sweep_number", .uint64, [], none⟩

/-- A linked container graph shaped like the intracellular-ephys notebook's
file: one device, one electrode owning it, two series sharing the one
electrode, and the sweep table. -/
def gDemo : Graph :=
  ⟨[(0, ⟨"Heka ITC-1600", [("manufacturer", Val.vStr "Heka")], none, [], []⟩),
    (1, ⟨"elec0", [("seal", Val.vStr "2e09")], none, [], [0]⟩),
    (2, ⟨"CC_Stim_Sweep0", [], none, [], [1]⟩),
    (3, ⟨"CC_Resp_Sweep0", [], none, [], [1]⟩),
    (4, ⟨"sweep_table", [], some sweepScenario, [⟨"sweep_table", .range 0 2⟩], []⟩)]⟩

/-- A graph with a reference cycle between two owning containers. -/
def gCyc : Graph :=
  ⟨[(0, ⟨"a", [], none, [], [1]⟩), (1, ⟨"b", [], none, [], [0]⟩)]⟩

/-- A plane segmentation that already committed to image masks. -/
def psOne : PlaneSeg :=
  { maskKind := some .imageMask, rois := [⟨.imageMask, [Val.vInt 1]⟩] }

theorem getD_append_lt (l l' : List Nat) (i d : Nat) (h : i < l.length) :
    (l ++ l').getD i d = l.getD i d := by
  simp [List.getD_eq_getElem?_getD, List.getElem?_append_left h]

theorem getD_concat_len (l : List Nat) (x d : Nat) :
    (l ++ [x]).getD l.length d = x := by
  simp [List.getD_eq_getElem?_getD, List.getElem?_concat_length]

theorem getD_last_of_getLast? (l : List Nat) (y d : Nat) (h : l.getLast? = some y) :
    l.getD (l.length - 1) d = y := by
  rw [List.getLast?_eq_getElem?] at h
  simp [List.getD_eq_getElem?_getD, h]

theorem getLastD_of_getLast? (l : List Nat) (y d : Nat) (h : l.getLast? = some y) :
    l.getLastD d = y := by
  cases l with
  | nil => simp at h
  | cons a t => simp [List.getLastD_eq_getLast?, h]

theorem length_pos_of_head? (l : List Nat) (y : Nat) (h : l.head? = some y) :
    0 < l.length := by
  cases l with
  | nil => simp at h
  | cons a t => simp

/-- The bounds of a well-formed ragged column are bounded by the flat-store
length. -/
theorem RaggedColumn.wf.le_flat (r : RaggedColumn) (hw : r.wf) (i : Nat)
    (h : i < r.rowBounds.length) : r.rowBounds.getD i 0 ≤ r.flatValues.length := by
  obtain ⟨h0, hl, hm⟩ := hw
  have hL : 0 < r.rowBounds.length := length_pos_of_head? _ _ h0
  have hlast : r.rowBounds.getD (r.rowBounds.length - 1) 0 = r.flatValues.length :=
    getD_last_of_getLast? _ _ _ hl
  have := hm (r.rowBounds.length - 1) (by omega) i (by omega)
  omega

/-- C3, part 1: appending a row preserves the ragged-column structural
invariant. -/
theorem raggedWf_appendRow (r : RaggedColumn) (vs : List Val) (hw : r.wf) :
    (r.appendRow vs).wf := by
  obtain ⟨h0, hl, hm⟩ := hw
  have hL : 0 < r.rowBounds.length := length_pos_of_head? _ _ h0
  have hlastD : r.rowBounds.getLastD 0 = r.flatValues.length :=
    getLastD_of_getLast? _ _ _ hl
  refine ⟨?_, ?_, ?_⟩
  · rw [RaggedColumn.appendRow]
    simp only [List.head?_append]
    rw [h0]
    rfl
  · rw [RaggedColumn.appendRow]
    simp only [List.getLast?_concat, hlastD, List.length_append]
  · rw [RaggedColumn.appendRow]
    simp only [List.length_append, List.length_cons, List.length_nil]
    intro j hj i hij
    rcases Nat.lt_or_ge j r.rowBounds.length with hjlt | hjge
    · rw [getD_append_lt _ _ _ _ (by omega), getD_append_lt _ _ _ _ hjlt]
      exact hm j hjlt i hij
    · have hj' : j = r.rowBounds.length := by omega
      subst hj'
      rw [getD_concat_len]
      rcases Nat.lt_or_ge i r.rowBounds.length with hilt | hige
      · rw [getD_append_lt _ _ _ _ hilt]
        have : r.rowBounds.getD i 0 ≤ r.flatValues.length :=
          RaggedColumn.wf.le_flat r ⟨h0, hl, hm⟩ i hilt
        omega
      · have hi' : i = r.rowBounds.length := by omega
        subst hi'
        rw [getD_concat_len, hlastD]

/--
C3: for every ragged column, `rowBounds` is non-decreasing, starts at 0 and
ends at `len(flatValues)`, and these invariants hold after every `appendRow`;
for every valid row index `i`, `getRow i` returns the slice
`flatValues[rowBounds[i] : rowBounds[i+1]]`, whose length equals
`rowBounds[i+1] - rowBounds[i]`; and `appendRow` with an empty sequence is
legal and yields two equal consecutive bounds.
-/
theorem claim3_ragged_invariants :
    (∀ (r : RaggedColumn) (vs : List Val), r.wf → (r.appendRow vs).wf) ∧
    (∀ (r : RaggedColumn) (i : Nat), r.wf → i < r.rowCount →
      r.getRow i = .ok ((r.flatValues.drop (r.rowBounds.getD i 0)).take
          (r.rowBounds.getD (i + 1) 0 - r.rowBounds.getD i 0)) ∧
      ∀ row, r.getRow i = .ok row →
        row.length = r.rowBounds.getD (i + 1) 0 - r.rowBounds.getD i 0) ∧
    (∀ r : RaggedColumn, r.wf →
      (r.appendRow []).rowBounds.getD ((r.appendRow []).rowBounds.length - 1) 0 =
      (r.appendRow []).rowBounds.getD ((r.appendRow []).rowBounds.length - 2) 0) := by
  refine ⟨raggedWf_appendRow, ?_, ?_⟩
  · intro r i hw hi
    have hok : r.getRow i = .ok ((r.flatValues.drop (r.rowBounds.getD i 0)).take
        (r.rowBounds.getD (i + 1) 0 - r.rowBounds.getD i 0)) := by
      rw [RaggedColumn.getRow, if_pos hi]
    refine ⟨hok, ?_⟩
    intro row hrow
    rw [hok] at hrow
    have hrow' : row = (r.flatValues.drop (r.rowBounds.getD i 0)).take
        (r.rowBounds.getD (i + 1) 0 - r.rowBounds.getD i 0) := by
      cases hrow
      rfl
    subst hrow'
    obtain ⟨h0, hl, hm⟩ := hw
    have hL : 0 < r.rowBounds.length := length_pos_of_head? _ _ h0
    have hcount : r.rowCount = r.rowBounds.length - 1 := rfl
    have hi1 : i + 1 < r.rowBounds.length := by
      rw [hcount] at hi; omega
    have hmono : r.rowBounds.getD i 0 ≤ r.rowBounds.getD (i + 1) 0 :=
      hm (i + 1) hi1 i (by omega)
    have hub : r.rowBounds.getD (i + 1) 0 ≤ r.flatValues.length :=
      RaggedColumn.wf.le_flat r ⟨h0, hl, hm⟩ (i + 1) hi1
    simp only [List.length_take, List.length_drop]
    omega
  · intro r hw
    obtain ⟨h0, hl, hm⟩ := hw
    have hL : 0 < r.rowBounds.length := length_pos_of_head? _ _ h0
    have hlastD : r.rowBounds.getLastD 0 = r.flatValues.length :=
      getLastD_of_getLast? _ _ _ hl
    have hlen : (r.appendRow []).rowBounds.length = r.rowBounds.length + 1 := by
      rw [RaggedColumn.appendRow]
      simp
    rw [hlen]
    have h1 : r.rowBounds.length + 1 - 1 = r.rowBounds.length := by omega
    have h2 : r.rowBounds.length + 1 - 2 = r.rowBounds.length - 1 := by omega
    rw [h1, h2]
    have hbounds : (r.appendRow []).rowBounds = r.rowBounds ++ [r.flatValues.length] := by
      rw [RaggedColumn.appendRow]
      simp only [List.length_nil, Nat.add_zero, hlastD]
    rw [hbounds, getD_concat_len, getD_append_lt _ _ _ _ (by omega),
      getD_last_of_getLast? _ _ _ hl]

/-- Witness for C3 at a concrete one-row ragged column. -/
theorem claim3_ragged_invariants_witness :
    rcDemo.wf ∧ (rcDemo.appendRow [Val.vInt 7]).wf ∧
    rcDemo.getRow 0 = .ok [Val.vInt 5] := by
  have hw : rcDemo.wf := by decide
  refine ⟨hw, claim3_ragged_invariants.1 rcDemo [Val.vInt 7] hw, ?_⟩
  have := (claim3_ragged_invariants.2.1 rcDemo 0 hw (by decide)).1
  simpa using this

/--
C5: appending a value whose type disagrees with the column's declared dtype
fails with `TypeMismatchError`, with exactly one exception: numeric widening
(an int64 value into a column of declared minimum unsigned width), which
emits a non-fatal warning event and lets the operation proceed with the value
stored unchanged; no other implicit coercion occurs.
-/
theorem claim5_append_type_discipline :
    ∀ (c : Column) (v : Val),
      (v.dtypeOf = c.dtype →
        c.append v = .ok ({ c with values := c.values ++ [v] }, [])) ∧
      (v.dtypeOf ≠ c.dtype → widensTo v c.dtype = true →
        c.append v = .ok ({ c with values := c.values ++ [v] },
          [WarningEvent.widening v.dtypeOf c.dtype])) ∧
      (v.dtypeOf ≠ c.dtype → widensTo v c.dtype = false →
        c.append v = .error .typeMismatch) ∧
      (widensTo v c.dtype = true ↔
        c.dtype = .uint64 ∧ ∃ i : Int, v = .vInt i ∧ 0 ≤ i) := by
  intro c v
  refine ⟨?_, ?_, ?_, ?_⟩
  · intro h
    rw [Column.append, if_pos h]
  · intro h hwide
    rw [Column.append, if_neg h, if_pos hwide]
  · intro h hwide
    rw [Column.append, if_neg h, if_neg (by rw [hwide]; exact Bool.false_ne_true)]
  · constructor
    · intro h
      cases v with
      | vInt i =>
        cases hd : c.dtype <;> rw [hd] at h <;> simp [widensTo] at h
        exact ⟨rfl, i, rfl, h⟩
      | vBool b => cases hd : c.dtype <;> rw [hd] at h <;> simp [widensTo] at h
      | vStr s => cases hd : c.dtype <;> rw [hd] at h <;> simp [widensTo] at h
      | vRef hh => cases hd : c.dtype <;> rw [hd] at h <;> simp [widensTo] at h
    · rintro ⟨hd, i, rfl, hi⟩
      rw [hd]
      simpa [widensTo] using hi

/-- Witness for C5 at the notebook's widening instance: an int64 sweep number
appended to the minimum-unsigned-width sweep-number column proceeds with a
warning event. -/
theorem claim5_append_type_discipline_witness :
    (Val.vInt 0).dtypeOf ≠ sweepCol.dtype ∧
    sweepCol.append (Val.vInt 0) =
      .ok ({ sweepCol with values := sweepCol.values ++ [Val.vInt 0] },
        [WarningEvent.widening (Val.vInt 0).dtypeOf sweepCol.dtype]) :=
  ⟨by decide, (claim5_append_type_discipline sweepCol (Val.vInt 0)).2.1 (by decide) (by decide)⟩

theorem lookupB_cons (a : Val) (rs : List Nat) (t : List (Val × List Nat)) (k : Val) :
    lookupB ((a, rs) :: t) k = if a = k then rs else lookupB t k := by
  by_cases h : a = k <;> simp [lookupB, List.find?_cons, h]

theorem lookupB_consBucket (v : Val) (rid : Nat) (bs : List (Val × List Nat)) (k : Val) :
    lookupB (consBucket v rid bs) k =
      if v = k then rid :: lookupB bs k else lookupB bs k := by
  induction bs with
  | nil =>
    rw [consBucket, lookupB_cons]
    by_cases h : v = k <;> simp [h, lookupB]
  | cons b t ih =>
    obtain ⟨a, rs⟩ := b
    by_cases hav : a = v
    · subst hav
      rw [consBucket, if_pos rfl]
      by_cases hak : a = k <;> simp [lookupB_cons, hak]
    · rw [consBucket, if_neg hav]
      by_cases hak : a = k
      · have hvk : ¬ v = k := fun h => hav (hak.trans h.symm)
        simp [lookupB_cons, hak, hvk]
      · simp [lookupB_cons, hak, ih]

theorem lookupB_mkBuckets (pairs : List (Nat × Val)) (k : Val) :
    lookupB (mkBuckets pairs) k =
      (pairs.filter (fun p => p.2 = k)).map (fun p => p.1) := by
  induction pairs with
  | nil => rfl
  | cons p t ih =>
    obtain ⟨rid, v⟩ := p
    rw [mkBuckets, lookupB_consBucket]
    by_cases h : v = k
    · simp [List.filter_cons, h, ih]
    · simp [List.filter_cons, h, ih]

theorem invalidateRebuildN_buildIndex (t : Table) (n : String) (m : Nat) :
    invalidateRebuildN t m (buildIndex t n) = buildIndex t n := by
  induction m with
  | zero => rfl
  | succ m ih =>
    rw [invalidateRebuildN]
    have : ((buildIndex t n).invalidate).rebuild t = buildIndex t n := rfl
    rw [this, ih]

/--
C2: for every table and key column, lookup on the freshly built group index
returns the row ids of the key's rows in original insertion order, equal as a
sequence to a full linear scan filtering on that key; an absent key yields
the empty sequence and never an error; the same equality holds after any
number of invalidate-plus-rebuild cycles; and in the two-row scenario with
sweep numbers 0 and 1, lookup 0 returns [row0], lookup 1 returns [row1], and
lookup 2 returns [].
-/
theorem claim2_group_lookup :
    (∀ (t : Table) (n : String) (k : Val),
      (buildIndex t n).lookup t k = t.linearScan n k) ∧
    (∀ (t : Table) (n : String) (k : Val) (m : Nat),
      (invalidateRebuildN t m (buildIndex t n)).lookup t k = t.linearScan n k) ∧
    (∀ (t : Table) (n : String) (k : Val),
      k ∉ t.keyVals n → (buildIndex t n).lookup t k = []) ∧
    ((buildIndex scenarioTable "sweep_number").lookup scenarioTable (Val.vInt 0) = [0] ∧
     (buildIndex scenarioTable "sweep_number").lookup scenarioTable (Val.vInt 1) = [1] ∧
     (buildIndex scenarioTable "sweep_number").lookup scenarioTable (Val.vInt 2) = []) := by
  have hbase : ∀ (t : Table) (n : String) (k : Val),
      (buildIndex t n).lookup t k = t.linearScan n k := by
    intro t n k
    rw [GroupIndex.lookup]
    have : (buildIndex t n).rebuild t = buildIndex t n := rfl
    rw [this, Table.linearScan]
    exact lookupB_mkBuckets _ k
  refine ⟨hbase, ?_, ?_, ?_⟩
  · intro t n k m
    rw [invalidateRebuildN_buildIndex]
    exact hbase t n k
  · intro t n k hk
    rw [hbase]
    rw [Table.linearScan]
    have : (t.rowIds.zip (t.keyVals n)).filter (fun p => p.2 = k) = [] := by
      rw [List.filter_eq_nil_iff]
      intro p hp
      have hmem : p.2 ∈ t.keyVals n := (List.of_mem_zip hp).2
      simp only [decide_eq_true_eq]
      intro hpk
      exact hk (hpk ▸ hmem)
    rw [this]
    rfl
  · exact ⟨by decide, by decide, by decide⟩

/-- Witness for C2 at the concrete two-row scenario with an absent key. -/
theorem claim2_group_lookup_witness :
    (Val.vInt 2) ∉ scenarioTable.keyVals "sweep_number" ∧
    (buildIndex scenarioTable "sweep_number").lookup scenarioTable (Val.vInt 2) = [] :=
  ⟨by decide,
   claim2_group_lookup.2.2.1 scenarioTable "sweep_number" (Val.vInt 2) (by decide)⟩

theorem appendRow_ok (t : Table) (row : List (String × RowVal)) (t' : Table)
    (h : t.appendRow row = .ok t') :
    t'.rowIds = t.rowIds ++ [t.nextId] ∧ t'.nextId = t.nextId + 1 ∧
    extendAll t.cols row = .ok t'.cols := by
  rw [Table.appendRow] at h
  cases he : extendAll t.cols row with
  | ok cols' =>
    rw [he] at h
    cases h
    exact ⟨rfl, rfl, rfl⟩
  | error e =>
    rw [he] at h
    exact Except.noConfusion h

theorem addColumn_ok (t : Table) (n : String) (d : Dtype) (u : Option String)
    (dflt : Option Val) (t' : Table) (h : t.addColumn n d u dflt = .ok t') :
    t'.rowIds = t.rowIds ∧ t'.nextId = t.nextId := by
  rw [Table.addColumn.eq_def] at h
  by_cases hdup : t.cols.any (fun tc => tc.name = n) = true
  · rw [if_pos hdup] at h
    exact Except.noConfusion h
  · rw [if_neg hdup] at h
    cases dflt with
    | some v =>
      cases h
      exact ⟨rfl, rfl⟩
    | none =>
      by_cases hz : t.rowCount = 0
      · rw [if_pos hz] at h
        cases h
        exact ⟨rfl, rfl⟩
      · rw [if_neg hz] at h
        exact Except.noConfusion h

theorem addRaggedColumn_ok (t : Table) (n : String) (t' : Table)
    (h : t.addRaggedColumn n = .ok t') :
    t'.rowIds = t.rowIds ∧ t'.nextId = t.nextId := by
  rw [Table.addRaggedColumn.eq_def] at h
  split at h
  · exact Except.noConfusion h
  · cases h
    exact ⟨rfl, rfl⟩

theorem inv_appendRow (t : Table) (row : List (String × RowVal)) (t' : Table)
    (hinv : t.inv) (h : t.appendRow row = .ok t') : t'.inv := by
  obtain ⟨hids, hnext, _⟩ := appendRow_ok t row t' h
  obtain ⟨hp, hb⟩ := hinv
  constructor
  · rw [hids, List.pairwise_append]
    refine ⟨hp, List.pairwise_singleton _ _, ?_⟩
    intro x hx y hy
    rw [List.mem_singleton] at hy
    subst hy
    exact hb x hx
  · intro i hi
    rw [hids, List.mem_append, List.mem_singleton] at hi
    rw [hnext]
    rcases hi with hi | hi
    · exact Nat.lt_succ_of_lt (hb i hi)
    · subst hi
      exact Nat.lt_succ_self _

theorem inv_applyOp (t : Table) (op : TableOp) (hinv : t.inv) :
    (t.applyOp op).inv ∧ t.rowCount ≤ (t.applyOp op).rowCount := by
  rw [Table.applyOp]
  cases hr : t.runOp op with
  | error e => exact ⟨hinv, Nat.le_refl _⟩
  | ok t' =>
    cases op with
    | append row =>
      refine ⟨inv_appendRow t row t' hinv hr, ?_⟩
      obtain ⟨hids, _, _⟩ := appendRow_ok t row t' hr
      rw [Table.rowCount, Table.rowCount, hids]
      simp
    | addCol n d u dflt =>
      obtain ⟨hids, hnext⟩ := addColumn_ok t n d u dflt t' hr
      constructor
      · exact ⟨hids ▸ hinv.1, fun i hi => hnext ▸ hinv.2 i (hids ▸ hi)⟩
      · rw [Table.rowCount, Table.rowCount, hids]
    | addRagged n =>
      obtain ⟨hids, hnext⟩ := addRaggedColumn_ok t n t' hr
      constructor
      · exact ⟨hids ▸ hinv.1, fun i hi => hnext ▸ hinv.2 i (hids ▸ hi)⟩
      · rw [Table.rowCount, Table.rowCount, hids]

theorem inv_applyOps (ops : List TableOp) : ∀ t : Table, t.inv →
    (t.applyOps ops).inv ∧ t.rowCount ≤ (t.applyOps ops).rowCount := by
  induction ops with
  | nil => exact fun t h => ⟨h, Nat.le_refl _⟩
  | cons op rest ih =>
    intro t h
    have h1 := inv_applyOp t op h
    have h2 := ih (t.applyOp op) h1.1
    rw [Table.applyOps, List.foldl_cons]
    exact ⟨h2.1, Nat.le_trans h1.2 h2.2⟩

/--
C6: for every dynamic record table and every sequence of operations, the row
ids stay strictly increasing and unique, the row count never shrinks, and
each successful `appendRow` assigns exactly the next monotonic row id (so an
id is never reused).
-/
theorem claim6_rowIds_monotone :
    ∀ (t : Table) (ops : List TableOp), t.inv →
      (t.applyOps ops).inv ∧
      (t.applyOps ops).rowIds.Pairwise (· < ·) ∧
      t.rowCount ≤ (t.applyOps ops).rowCount ∧
      (∀ (row : List (String × RowVal)) (t' : Table), t.appendRow row = .ok t' →
        t'.rowIds = t.rowIds ++ [t.nextId] ∧ t'.nextId = t.nextId + 1) := by
  intro t ops hinv
  obtain ⟨h1, h2⟩ := inv_applyOps ops t hinv
  exact ⟨h1, h1.1, h2, fun row t' h =>
    ⟨(appendRow_ok t row t' h).1, (appendRow_ok t row t' h).2.1⟩⟩

/-- Witness for C6 at the concrete sweep table and its four registrations. -/
theorem claim6_rowIds_monotone_witness :
    (newSweepTable.applyOps
      [.append (scenarioRow [100] 0), .append (scenarioRow [101] 1)]).inv ∧
    newSweepTable.rowCount ≤ (newSweepTable.applyOps
      [.append (scenarioRow [100] 0), .append (scenarioRow [101] 1)]).rowCount :=
  ⟨(claim6_rowIds_monotone newSweepTable
      [.append (scenarioRow [100] 0), .append (scenarioRow [101] 1)] (by decide)).1,
   (claim6_rowIds_monotone newSweepTable
      [.append (scenarioRow [100] 0), .append (scenarioRow [101] 1)] (by decide)).2.2.1⟩

theorem find?_append_none {α : Type} (l l' : List α) (p : α → Bool)
    (h : l.find? p = none) : (l ++ l').find? p = l'.find? p := by
  induction l with
  | nil => rfl
  | cons a tl ih =>
    cases hp : p a with
    | true =>
      rw [List.find?_cons_of_pos _ hp] at h
      exact Option.noConfusion h
    | false =>
      have hp' : ¬ p a = true := by rw [hp]; exact Bool.false_ne_true
      rw [List.find?_cons_of_neg _ hp'] at h
      rw [List.cons_append, List.find?_cons_of_neg _ hp']
      exact ih h

theorem getD_replicate_of_lt (m : Nat) (v : Val) (i : Nat) (d : Val) (h : i < m) :
    (List.replicate m v).getD i d = v := by
  rw [List.getD_eq_getElem?_getD, List.getElem?_replicate_of_lt h]
  rfl

/--
C7: `addColumn` fails with `DuplicateColumnError` when a column of that name
already exists; when the table already has rows and no default is supplied it
fails with `MissingDefaultError`; and when a default is supplied the column
is added with every previously appended row reading that default value.
-/
theorem claim7_addColumn_backfill :
    ∀ (t : Table) (n : String) (d : Dtype) (u : Option String) (dflt : Option Val),
      (t.cols.any (fun tc => tc.name = n) = true →
        t.addColumn n d u dflt = .error .duplicateColumn) ∧
      (t.cols.any (fun tc => tc.name = n) = false → 0 < t.rowCount → dflt = none →
        t.addColumn n d u dflt = .error .missingDefault) ∧
      (∀ v, t.cols.any (fun tc => tc.name = n) = false → dflt = some v →
        t.addColumn n d u dflt = .ok { t with
          cols := t.cols ++ [.plain ⟨n, d, List.replicate t.rowCount v, u⟩ (some v)] } ∧
        ∀ i, i < t.rowCount →
          Table.getCell { t with
              cols := t.cols ++ [.plain ⟨n, d, List.replicate t.rowCount v, u⟩ (some v)] }
            n i = .ok (.scalar v)) := by
  intro t n d u dflt
  refine ⟨?_, ?_, ?_⟩
  · intro hdup
    rw [Table.addColumn.eq_def, if_pos hdup]
  · intro hno hrows hnone
    subst hnone
    rw [Table.addColumn.eq_def, if_neg (by rw [hno]; exact Bool.false_ne_true)]
    rw [if_neg (by omega)]
  · intro v hno hsome
    subst hsome
    refine ⟨by rw [Table.addColumn.eq_def, if_neg (by rw [hno]; exact Bool.false_ne_true)], ?_⟩
    intro i hi
    have hfindnone : t.cols.find? (fun tc => tc.name = n) = none := by
      rw [List.find?_eq_none]
      intro x hx
      have := (List.any_eq_false.mp hno) x hx
      simpa using this
    have hfind : (t.cols ++ [TCol.plain ⟨n, d, List.replicate t.rowCount v, u⟩ (some v)]).find?
        (fun tc => tc.name = n) =
        some (TCol.plain ⟨n, d, List.replicate t.rowCount v, u⟩ (some v)) := by
      rw [find?_append_none _ _ _ hfindnone]
      apply List.find?_cons_of_pos
      simp [TCol.name]
    rw [Table.getCell.eq_def]
    rw [show ({ t with cols := t.cols ++
        [TCol.plain ⟨n, d, List.replicate t.rowCount v, u⟩ (some v)] } : Table).cols =
      t.cols ++ [TCol.plain ⟨n, d, List.replicate t.rowCount v, u⟩ (some v)] from rfl]
    rw [hfind]
    show (TCol.plain ⟨n, d, List.replicate t.rowCount v, u⟩ (some v)).getCell i =
      Except.ok (RowVal.scalar v)
    rw [show (TCol.plain ⟨n, d, List.replicate t.rowCount v, u⟩ (some v)).getCell i =
      (if i < (List.replicate t.rowCount v).length then
        Except.ok (RowVal.scalar ((List.replicate t.rowCount v).getD i (Val.vInt 0)))
      else Except.error Err.indexErr) from rfl]
    rw [if_pos (by simpa using hi), getD_replicate_of_lt _ _ _ _ hi]

/-- Witness for C7 at the trials table of the optical-physiology notebook:
adding the `correct` column with a default backfills both existing rows. -/
theorem claim7_addColumn_backfill_witness :
    trialsTable.addColumn "correct" .boolT none (some (.vBool true)) =
      .ok { trialsTable with cols := trialsTable.cols ++
        [.plain ⟨"correct", .boolT, List.replicate trialsTable.rowCount (.vBool true), none⟩
          (some (.vBool true))] } ∧
    Table.getCell { trialsTable with cols := trialsTable.cols ++
        [.plain ⟨"correct", .boolT, List.replicate trialsTable.rowCount (.vBool true), none⟩
          (some (.vBool true))] } "correct" 0 = .ok (.scalar (.vBool true)) :=
  ⟨((claim7_addColumn_backfill trialsTable "correct" .boolT none
      (some (.vBool true))).2.2 (.vBool true) (by decide) rfl).1,
   ((claim7_addColumn_backfill trialsTable "correct" .boolT none
      (some (.vBool true))).2.2 (.vBool true) (by decide) rfl).2 0 (by decide)⟩

theorem getD_take_of_lt (l : List Nat) (k j d : Nat) (h : j < k) :
    (l.take k).getD j d = l.getD j d := by
  rw [List.getD_eq_getElem?_getD, List.getD_eq_getElem?_getD, List.getElem?_take_of_lt h]

theorem getD_drop_add (l : List Nat) (s j d : Nat) :
    (l.drop s).getD j d = l.getD (s + j) d := by
  rw [List.getD_eq_getElem?_getD, List.getD_eq_getElem?_getD, List.getElem?_drop]

/--
C8: `makeRange(table, start, end)` succeeds exactly when
`0 <= start <= end <= table.rowCount` and fails with `RangeError` otherwise;
resolving the resulting reference yields exactly the rows at positions
`[start, end)` in order (so `makeRange(t, 0, 2)` resolves to rows 0 and 1 in
order, and `makeRange(t, 1, 1)` resolves to the legal empty sequence).
-/
theorem claim8_makeRange_resolve :
    ∀ (t : Table) (s e : Nat),
      ((s ≤ e ∧ e ≤ t.rowCount) →
        makeRange t s e = .ok ⟨t.tid, .range s e⟩ ∧
        resolveRef t ⟨t.tid, .range s e⟩ = .ok ((t.rowIds.drop s).take (e - s)) ∧
        ((t.rowIds.drop s).take (e - s)).length = e - s ∧
        (∀ j, j < e - s →
          ((t.rowIds.drop s).take (e - s)).getD j 0 = t.rowIds.getD (s + j) 0)) ∧
      (¬(s ≤ e ∧ e ≤ t.rowCount) → makeRange t s e = .error .rangeErr) := by
  intro t s e
  constructor
  · intro h
    refine ⟨by rw [makeRange, if_pos h], ?_, ?_, ?_⟩
    · show (if s ≤ e ∧ e ≤ t.rowCount then Except.ok ((t.rowIds.drop s).take (e - s))
        else Except.error Err.staleRef) = Except.ok ((t.rowIds.drop s).take (e - s))
      rw [if_pos h]
    · have he : e ≤ t.rowIds.length := h.2
      simp only [List.length_take, List.length_drop]
      omega
    · intro j hj
      rw [getD_take_of_lt _ _ _ _ hj, getD_drop_add]
  · intro h
    rw [makeRange, if_neg h]

/-- Witness for C8 at the two-row scenario table: the range [0, 2) resolves
to rows 0 and 1 in order, and the empty range [1, 1) resolves to the legal
empty sequence. -/
theorem claim8_makeRange_resolve_witness :
    makeRange scenarioTable 0 2 = .ok ⟨scenarioTable.tid, .range 0 2⟩ ∧
    resolveRef scenarioTable ⟨scenarioTable.tid, .range 0 2⟩ = .ok [0, 1] ∧
    makeRange scenarioTable 1 1 = .ok ⟨scenarioTable.tid, .range 1 1⟩ ∧
    resolveRef scenarioTable ⟨scenarioTable.tid, .range 1 1⟩ = .ok [] := by
  have h1 := (claim8_makeRange_resolve scenarioTable 0 2).1 (by decide)
  have h2 := (claim8_makeRange_resolve scenarioTable 1 1).1 (by decide)
  refine ⟨h1.1, ?_, h2.1, ?_⟩
  · rw [h1.2.1]
    rfl
  · rw [h2.2.1]
    rfl

theorem registerSeries_shaped (t : Table) (h : Nat) (n : Int)
    (r : RaggedColumn) (cvals : List Val) (cu : Option String)
    (hcols : t.cols = [.ragged "series" r,
      .plain ⟨"sweep_number", .uint64, cvals, cu⟩ none])
    (hn : 0 ≤ n) :
    registerSeries t h n = .ok { t with
      rowIds := t.rowIds ++ [t.nextId],
      nextId := t.nextId + 1,
      cols := [.ragged "series" (r.appendRow [Val.vRef h]),
               .plain ⟨"sweep_number", .uint64, cvals ++ [Val.vInt n], cu⟩ none] } := by
  have hwide : widensTo (Val.vInt n) Dtype.uint64 = true := by
    simp only [widensTo, decide_eq_true_eq]
    exact hn
  have step2 : TCol.extend (TCol.plain ⟨"sweep_number", Dtype.uint64, cvals, cu⟩ none)
      [("series", RowVal.seq [Val.vRef h]), ("sweep_number", RowVal.scalar (Val.vInt n))] =
      match Column.append ⟨"sweep_number", Dtype.uint64, cvals, cu⟩ (Val.vInt n) with
      | .ok cv => .ok (.plain cv.1 none)
      | .error e => .error e := rfl
  have happ : Column.append ⟨"sweep_number", Dtype.uint64, cvals, cu⟩ (Val.vInt n) =
      .ok (⟨"sweep_number", Dtype.uint64, cvals ++ [Val.vInt n], cu⟩,
        [WarningEvent.widening Dtype.int64 Dtype.uint64]) := by
    rw [Column.append, if_neg (by simp [Val.dtypeOf]), if_pos hwide]
    rfl
  have hext : extendAll [TCol.ragged "series" r,
      TCol.plain ⟨"sweep_number", Dtype.uint64, cvals, cu⟩ none]
      [("series", RowVal.seq [Val.vRef h]), ("sweep_number", RowVal.scalar (Val.vInt n))] =
      .ok [TCol.ragged "series" (r.appendRow [Val.vRef h]),
           TCol.plain ⟨"sweep_number", Dtype.uint64, cvals ++ [Val.vInt n], cu⟩ none] := by
    rw [extendAll]
    rw [show TCol.extend (TCol.ragged "series" r)
        [("series", RowVal.seq [Val.vRef h]), ("sweep_number", RowVal.scalar (Val.vInt n))] =
        .ok (.ragged "series" (r.appendRow [Val.vRef h])) from rfl]
    rw [extendAll, step2, happ, extendAll]
  rw [registerSeries, Table.appendRow, hcols, hext]

/--
C9: the sweep table gains exactly one row per series registered, whether as
stimulus or as acquisition, each row carrying that series' sweep number; after
registering four series with sweep numbers 0, 1, 0, 1 the table has exactly
rows 0 through 3, its key column reads [0, 1, 0, 1] in registration order,
and the distinct keys are {0, 1}.
-/
theorem claim9_sweep_registration :
    (∀ (t : Table) (h : Nat) (n : Int), sweepShaped t → 0 ≤ n →
      registerSeries t h n = .ok (applyReg t h n) ∧
      (applyReg t h n).rowCount = t.rowCount + 1 ∧
      (applyReg t h n).rowIds = t.rowIds ++ [t.nextId] ∧
      (applyReg t h n).keyVals "sweep_number" =
        t.keyVals "sweep_number" ++ [Val.vInt n] ∧
      sweepShaped (applyReg t h n)) ∧
    (∀ (t : Table) (h : Nat) (n : Int), addStimulus t h n = addAcquisition t h n) ∧
    (sweepScenario.rowIds = [0, 1, 2, 3] ∧
     sweepScenario.keyVals "sweep_number" =
       [Val.vInt 0, Val.vInt 1, Val.vInt 0, Val.vInt 1] ∧
     (sweepScenario.keyVals "sweep_number").dedup = [Val.vInt 0, Val.vInt 1]) := by
  refine ⟨?_, fun t h n => rfl, by decide, by decide, by decide⟩
  intro t h n hsh hn
  obtain ⟨r, c, hcols, hname, hdtype⟩ := hsh
  obtain ⟨cn, cd, cvals, cu⟩ := c
  have hcn : cn = "sweep_number" := hname
  have hcd : cd = Dtype.uint64 := hdtype
  subst hcn hcd
  have hreg := registerSeries_shaped t h n r cvals cu hcols hn
  have happly : applyReg t h n = { t with
      rowIds := t.rowIds ++ [t.nextId],
      nextId := t.nextId + 1,
      cols := [.ragged "series" (r.appendRow [Val.vRef h]),
               .plain ⟨"sweep_number", .uint64, cvals ++ [Val.vInt n], cu⟩ none] } := by
    rw [applyReg, hreg]
  refine ⟨by rw [hreg, happly], ?_, ?_, ?_, ?_⟩
  · rw [happly, Table.rowCount, Table.rowCount]
    simp
  · rw [happly]
  · rw [happly, Table.keyVals.eq_def, Table.keyVals.eq_def, hcols]
    rfl
  · exact ⟨r.appendRow [Val.vRef h],
      ⟨"sweep_number", .uint64, cvals ++ [Val.vInt n], cu⟩, by rw [happly], rfl, rfl⟩

/-- Witness for C9: the first registration into the fresh sweep table. -/
theorem claim9_sweep_registration_witness :
    registerSeries newSweepTable 100 0 = .ok (applyReg newSweepTable 100 0) ∧
    (applyReg newSweepTable 100 0).rowIds = newSweepTable.rowIds ++ [newSweepTable.nextId] := by
  have hsh : sweepShaped newSweepTable :=
    ⟨⟨[], [0]⟩, ⟨"sweep_number", .uint64, [], none⟩, rfl, rfl, rfl⟩
  have h := (claim9_sweep_registration.1 newSweepTable 100 0 hsh (by decide))
  exact ⟨h.1, h.2.2.1⟩

/--
C10: within one plane-segmentation table the ROI mask representation is
uniform: a fresh table is vacuously uniform, every successful `addRoi`
preserves uniformity (so all rows share one mask kind), and adding an ROI of
the other kind to a committed table fails, so mixing representations requires
a second segmentation table.
-/
theorem claim10_mask_uniformity :
    PlaneSeg.fresh.uniform ∧
    (∀ (ps : PlaneSeg) (k : MaskKind) (m : List Val) (ps' : PlaneSeg),
      ps.uniform → ps.addRoi k m = .ok ps' → ps'.uniform) ∧
    (∀ (ps : PlaneSeg) (k k0 : MaskKind) (m : List Val),
      ps.maskKind = some k0 → k ≠ k0 → ps.addRoi k m = .error .typeMismatch) ∧
    (∀ ps : PlaneSeg, ps.uniform →
      ∀ r ∈ ps.rois, ∀ r' ∈ ps.rois, r.kind = r'.kind) := by
  refine ⟨?_, ?_, ?_, ?_⟩
  · intro r hr
    exact absurd hr (List.not_mem_nil r)
  · intro ps k m ps' hu h
    rw [PlaneSeg.addRoi.eq_def] at h
    cases hmk : ps.maskKind with
    | none =>
      rw [hmk] at h
      cases h
      intro r hr
      rw [List.mem_append, List.mem_singleton] at hr
      rcases hr with hr | hr
      · have := hu r hr
        rw [hmk] at this
        exact Option.noConfusion this
      · subst hr
        rfl
    | some k0 =>
      rw [hmk] at h
      simp only [] at h
      by_cases hk : k = k0
      · rw [if_pos hk] at h
        cases h
        intro r hr
        rw [List.mem_append, List.mem_singleton] at hr
        rcases hr with hr | hr
        · show some r.kind = some k0
          rw [← hmk]
          exact hu r hr
        · subst hr
          show some k = some k0
          rw [hk]
      · rw [if_neg hk] at h
        exact Except.noConfusion h
  · intro ps k k0 m hmk hk
    rw [PlaneSeg.addRoi.eq_def, hmk]
    simp only []
    rw [if_neg hk]
  · intro ps hu r hr r' hr'
    have h1 := hu r hr
    have h2 := hu r' hr'
    rw [← h2] at h1
    exact Option.some.inj h1

/-- Witness for C10: a pixel-mask ROI cannot be added to a table committed to
image masks. -/
theorem claim10_mask_uniformity_witness :
    psOne.uniform ∧ psOne.addRoi .pixelMask [] = .error .typeMismatch :=
  ⟨by decide,
   claim10_mask_uniformity.2.2.1 psOne .pixelMask .imageMask [] rfl (by decide)⟩

theorem append_length (c : Column) (v : Val) (pr : Column × List WarningEvent)
    (h : c.append v = .ok pr) : pr.1.values.length = c.values.length + 1 := by
  rw [Column.append] at h
  split at h
  · cases h
    simp
  · split at h
    · cases h
      simp
    · exact Except.noConfusion h

theorem extend_entriesOk (tc tc' : TCol) (row : List (String × RowVal)) (m : Nat)
    (h : tc.extend row = .ok tc') (he : tc.entriesOk m) : tc'.entriesOk (m + 1) := by
  cases tc with
  | plain c d =>
    rw [TCol.extend.eq_def] at h
    simp only [] at h
    cases hf : row.find? (fun p => p.1 = c.name) with
    | some pr =>
      rw [hf] at h
      obtain ⟨s, rv⟩ := pr
      cases rv with
      | scalar v =>
        simp only [] at h
        cases ha : c.append v with
        | ok cv =>
          rw [ha] at h
          cases h
          show cv.1.values.length = m + 1
          have hlen := append_length c v cv ha
          have hm : c.values.length = m := he
          omega
        | error e =>
          rw [ha] at h
          exact Except.noConfusion h
      | seq vs =>
        simp only [] at h
        exact Except.noConfusion h
    | none =>
      rw [hf] at h
      cases d with
      | some v =>
        simp only [] at h
        cases ha : c.append v with
        | ok cv =>
          rw [ha] at h
          cases h
          show cv.1.values.length = m + 1
          have hlen := append_length c v cv ha
          have hm : c.values.length = m := he
          omega
        | error e =>
          rw [ha] at h
          exact Except.noConfusion h
      | none =>
        simp only [] at h
        exact Except.noConfusion h
  | ragged n r =>
    rw [TCol.extend.eq_def] at h
    simp only [] at h
    cases hf : row.find? (fun p => p.1 = n) with
    | some pr =>
      rw [hf] at h
      obtain ⟨s, rv⟩ := pr
      cases rv with
      | scalar v =>
        simp only [] at h
        exact Except.noConfusion h
      | seq vs =>
        simp only [] at h
        cases h
        show (r.appendRow vs).rowBounds.length = m + 1 + 1
        have hm : r.rowBounds.length = m + 1 := he
        rw [RaggedColumn.appendRow]
        simp only [List.length_append, List.length_cons, List.length_nil]
        omega
    | none =>
      rw [hf] at h
      exact Except.noConfusion h

theorem extendAll_entriesOk (cols : List TCol) (row : List (String × RowVal)) :
    ∀ (cols' : List TCol) (m : Nat), extendAll cols row = .ok cols' →
      (∀ tc ∈ cols, tc.entriesOk m) → ∀ tc' ∈ cols', tc'.entriesOk (m + 1) := by
  induction cols with
  | nil =>
    intro cols' m h he
    rw [extendAll] at h
    cases h
    intro tc' h'
    exact absurd h' (List.not_mem_nil _)
  | cons tc rest ih =>
    intro cols' m h he
    rw [extendAll] at h
    cases hx : tc.extend row with
    | ok tc1 =>
      rw [hx] at h
      simp only [] at h
      cases hr : extendAll rest row with
      | ok rest1 =>
        rw [hr] at h
        simp only [] at h
        cases h
        intro tc' h'
        rw [List.mem_cons] at h'
        rcases h' with h' | h'
        · subst h'
          exact extend_entriesOk tc tc' row m hx (he tc (List.mem_cons_self _ _))
        · exact ih rest1 m hr (fun x hxm => he x (List.mem_cons_of_mem _ hxm)) tc' h'
      | error e =>
        rw [hr] at h
        exact Except.noConfusion h
    | error e =>
      rw [hx] at h
      exact Except.noConfusion h

theorem lenOk_appendRow (t t' : Table) (row : List (String × RowVal))
    (h : t.appendRow row = .ok t') (hl : t.lenOk) : t'.lenOk := by
  obtain ⟨hids, hnext, hext⟩ := appendRow_ok t row t' h
  intro tc h'
  have hcount : t'.rowCount = t.rowCount + 1 := by
    rw [Table.rowCount, Table.rowCount, hids]
    simp
  rw [hcount]
  exact extendAll_entriesOk t.cols row t'.cols t.rowCount hext.symm.symm hl tc h'

/--
C4: every failing operation is atomic — a failed table operation leaves the
prior in-memory table unchanged, a successful `appendRow` extends every
column by exactly one entry (no partial row is ever left behind), writing a
graph whose ownership edges form a cycle fails with `CyclicGraphError`
producing no persisted bytes, and any failed write leaves the destination
fully absent.
-/
theorem claim4_failure_atomicity :
    (∀ (t : Table) (op : TableOp) (e : Err), t.runOp op = .error e → t.applyOp op = t) ∧
    (∀ (t : Table) (row : List (String × RowVal)) (t' : Table),
      t.lenOk → t.appendRow row = .ok t' →
      t'.lenOk ∧ t'.rowCount = t.rowCount + 1) ∧
    (∀ g : Graph, g.hasCycle = true → writeGraph g = .error .cyclicGraph) ∧
    (∀ (g : Graph) (e : Err), writeGraph g = .error e → writeDest g = none) := by
  refine ⟨?_, ?_, ?_, ?_⟩
  · intro t op e h
    rw [Table.applyOp, h]
  · intro t row t' hl h
    refine ⟨lenOk_appendRow t t' row h hl, ?_⟩
    rw [Table.rowCount, Table.rowCount, (appendRow_ok t row t' h).1]
    simp
  · intro g h
    rw [writeGraph, if_pos h]
  · intro g e h
    rw [writeDest, h]

/-- Witness for C4: the two-container ownership cycle fails with
`CyclicGraphError` and leaves the destination absent. -/
theorem claim4_failure_atomicity_witness :
    writeGraph gCyc = .error .cyclicGraph ∧ writeDest gCyc = none := by
  have h := claim4_failure_atomicity.2.2.1 gCyc (by decide)
  exact ⟨h, claim4_failure_atomicity.2.2.2 gCyc .cyclicGraph h⟩

theorem decodeTCol_encodeTCol (tc : TCol) (hi : tc.raggedIntact = true) :
    decodeTCol (encodeTCol tc) = .ok tc := by
  cases tc with
  | plain c d => rfl
  | ragged n r =>
    have hb : boundsOk ⟨r.flatValues, r.rowBounds⟩ = true := hi
    show (if boundsOk ⟨r.flatValues, r.rowBounds⟩ then
        Except.ok (TCol.ragged n ⟨r.flatValues, r.rowBounds⟩)
      else Except.error Err.corruption) = Except.ok (TCol.ragged n r)
    rw [if_pos hb]

theorem decodeTCols_map_encode (cols : List TCol)
    (hi : ∀ tc ∈ cols, tc.raggedIntact = true) :
    decodeTCols (cols.map encodeTCol) = .ok cols := by
  induction cols with
  | nil => rfl
  | cons tc rest ih =>
    rw [List.map_cons, decodeTCols,
      decodeTCol_encodeTCol tc (hi tc (List.mem_cons_self _ _)),
      ih (fun x hx => hi x (List.mem_cons_of_mem _ hx))]

theorem decodeTable_encodeTable (t : Table) (hr : t.raggedOk) :
    decodeTable (encodeTable t) = .ok t := by
  rw [encodeTable, decodeTable]
  rw [show (⟨t.tid, t.rowIds, t.nextId, t.cols.map encodeTCol⟩ : PTable).pcols =
    t.cols.map encodeTCol from rfl]
  rw [decodeTCols_map_encode t.cols hr]

theorem map_encode_refs (refs : List RegionReference) :
    ((refs.map (fun ref => (ref.targetTableId, ref.sel))).map
      (fun pr => (⟨pr.1, pr.2⟩ : RegionReference))) = refs := by
  induction refs with
  | nil => rfl
  | cons a t ih =>
    rw [List.map_cons, List.map_cons, ih]

theorem decodeEntry_encodeEntry (p : Nat × Container)
    (hr : ∀ tbl, p.2.table = some tbl → tbl.raggedOk) :
    decodeEntry (encodeEntry p) = .ok p := by
  obtain ⟨h, c⟩ := p
  obtain ⟨cn, cattrs, ctable, crefs, clinks⟩ := c
  cases ctable with
  | none =>
    show decodeEntry ⟨h, cn, cattrs, none,
      crefs.map (fun ref => (ref.targetTableId, ref.sel)), clinks⟩ = _
    rw [decodeEntry]
    simp only []
    rw [map_encode_refs]
  | some tbl =>
    show decodeEntry ⟨h, cn, cattrs, some (encodeTable tbl),
      crefs.map (fun ref => (ref.targetTableId, ref.sel)), clinks⟩ = _
    rw [decodeEntry]
    simp only []
    rw [decodeTable_encodeTable tbl (hr tbl rfl)]
    simp only []
    rw [map_encode_refs]

theorem decodeEntries_map_encode (ps : List (Nat × Container))
    (hr : ∀ p ∈ ps, ∀ tbl, p.2.table = some tbl → tbl.raggedOk) :
    decodeEntries (ps.map encodeEntry) = .ok ps := by
  induction ps with
  | nil => rfl
  | cons p rest ih =>
    rw [List.map_cons, decodeEntries,
      decodeEntry_encodeEntry p (hr p (List.mem_cons_self _ _)),
      ih (fun x hx => hr x (List.mem_cons_of_mem _ hx))]

theorem filter_key_length_le_one (l : List (Nat × Container))
    (h : (l.map (fun p => p.1)).Nodup) (hd : Nat) :
    (l.filter (fun p => p.1 = hd)).length ≤ 1 := by
  induction l with
  | nil => simp
  | cons a t ih =>
    rw [List.map_cons, List.nodup_cons] at h
    rw [List.filter_cons]
    by_cases ha : a.1 = hd
    · rw [if_pos (by simpa using ha)]
      have hnil : t.filter (fun p => p.1 = hd) = [] := by
        rw [List.filter_eq_nil_iff]
        intro p hp
        simp only [decide_eq_true_eq]
        intro hph
        exact h.1 (List.mem_map.mpr ⟨p, hp, by rw [hph, ha]⟩)
      rw [hnil]
      simp
    · rw [if_neg (by simpa using ha)]
      exact ih h.2

theorem roundTrip_eq (g : Graph) (hw : g.wf) : roundTrip g = .ok g := by
  obtain ⟨hnd, htab, hcyc⟩ := hw
  have hwrite : writeGraph g = .ok ⟨formatVersion, g.arena.map encodeEntry⟩ := by
    rw [writeGraph, if_neg (by rw [hcyc]; exact Bool.false_ne_true)]
  rw [roundTrip, hwrite]
  simp only []
  rw [readGraph.eq_def]
  rw [if_pos rfl]
  rw [show (⟨formatVersion, g.arena.map encodeEntry⟩ : PFile).entries =
    g.arena.map encodeEntry from rfl]
  rw [decodeEntries_map_encode g.arena htab]

/--
C1: serializing a well-formed linked container graph and materializing it
back yields an equal graph — every column's values, every table's row data
and every region reference are equal because the whole graph is — and
shared-object identity is preserved: after the round trip every handle
resolves to the same container entry as before, and the arena holds at most
one copy per handle, so two references to one object resolve to the same
single identity, not to two copies.
-/
theorem claim1_roundtrip_identity :
    ∀ g : Graph, g.wf →
      roundTrip g = .ok g ∧
      ∀ g' : Graph, roundTrip g = .ok g' →
        (∀ hd : Nat, g'.findC hd = g.findC hd) ∧
        (∀ hd : Nat, (g'.arena.filter (fun p => p.1 = hd)).length ≤ 1) := by
  intro g hw
  have hrt := roundTrip_eq g hw
  refine ⟨hrt, ?_⟩
  intro g' hg'
  rw [hrt] at hg'
  have : g = g' := by
    cases hg'
    rfl
  subst this
  exact ⟨fun hd => rfl, fun hd => filter_key_length_le_one g.arena hw.1 hd⟩

/-- Witness for C1 at the notebook-shaped graph whose electrode is shared by
two series. -/
theorem claim1_roundtrip_identity_witness :
    gDemo.wf ∧ roundTrip gDemo = .ok gDemo :=
  ⟨by decide, (claim1_roundtrip_identity gDemo (by decide)).1⟩

end ContainerStore
